import Mathlib

/-!
Verification of the course-registration system (src/app.py).

Time is modelled in seconds since a Monday-00:00 epoch, so that
`weekday t = t / 86400 % 7` agrees with Python `datetime.weekday()`
(Monday = 0) and time-of-day is `t % 86400`.  Python strings are
modelled as `List Char` with hand-translated `strip`/`split`/`join`,
and Python sets as duplicate-free lists with set-semantics operations,
so that every definition is executable.
-/

abbrev Line := List Char

abbrev Cid := List Char

def cid (s : String) : Cid := s.data

/-- The whitespace characters recognised by Python `str.strip()` (ASCII range). -/
def isPyWs (c : Char) : Bool :=
  c == ' ' || c == '\t' || c == '\n' || c == '\r' || c == '\x0b' || c == '\x0c'

/-- Python `str.strip()`. -/
def pyStrip (l : Line) : Line :=
  ((l.dropWhile isPyWs).reverse.dropWhile isPyWs).reverse

/-- Python `str.split(sep)` for a one-character separator. -/
def pySplit (sep : Char) : Line → List Line
  | [] => [[]]
  | c :: rest =>
    match pySplit sep rest with
    | [] => [[c]]
    | t :: ts => if c = sep then [] :: t :: ts else (c :: t) :: ts

/-- Python `sep.join(tokens)`. -/
def pyJoin (sep : Line) : List Line → Line
  | [] => []
  | [t] => t
  | t :: ts => t ++ sep ++ pyJoin sep ts

/-- Python lexicographic string order (by code point), as used by `sorted`. -/
def lexLe : Line → Line → Bool
  | [], _ => true
  | _ :: _, [] => false
  | a :: l₁, b :: l₂ =>
    if a.val < b.val then true
    else if b.val < a.val then false
    else lexLe l₁ l₂

/-- Python `sorted()` applied to a set of strings (list model of the set). -/
def sortIds (l : List Cid) : List Cid :=
  List.insertionSort (fun a b => lexLe a b = true) l

/-- Python `set.add` on the list model of a set. -/
def setAdd (s : List Cid) (x : Cid) : List Cid :=
  if x ∈ s then s else s ++ [x]

/-- Python `set.union` on the list model of a set. -/
def setUnion (a b : List Cid) : List Cid :=
  a ++ b.filter (fun x => decide (x ∉ a))

/-- A plain course id: nonempty, not starting with the exclusion marker,
and containing no whitespace and no comma. -/
def PlainId (t : Cid) : Prop :=
  t ≠ [] ∧ t.head? ≠ some '!' ∧ ∀ c ∈ t, isPyWs c = false ∧ c ≠ ','

instance (t : Cid) : Decidable (PlainId t) := by
  unfold PlainId
  infer_instance

/-! ### Course Calendar (src/app.py lines 23-107) -/

structure CourseInfo where
  day_index : Nat
  hour : Nat
  minute : Nat
deriving DecidableEq

/-- `course_day_time_mapping` of src/app.py lines 23-30; `"18:00"` is kept as
the pair `(18, 0)` produced by `strptime("%H:%M")`. -/
def courseTable : List (Cid × CourseInfo) :=
  [(cid "051001", ⟨2, 18, 0⟩), (cid "051002", ⟨4, 16, 30⟩),
   (cid "051003", ⟨6, 15, 15⟩), (cid "051011", ⟨1, 21, 0⟩),
   (cid "051012", ⟨4, 18, 0⟩), (cid "0510011", ⟨2, 18, 30⟩)]

def course_day_time_mapping (c : Cid) : Option CourseInfo :=
  courseTable.lookup c

/-- Seconds after midnight of the configured start time. -/
def startSecOfDay (i : CourseInfo) : Nat := 3600 * i.hour + 60 * i.minute

/-- Midnight of the day containing `t` (the `replace(hour, minute, 0, 0)` base). -/
def midnightOf (t : Nat) : Nat := t - t % 86400

def weekdayOf (t : Nat) : Nat := t / 86400 % 7

def timeOfDayOf (t : Nat) : Nat := t % 86400

/-- `calculate_next_course_time` (src/app.py lines 56-80). -/
def calculate_next_course_time (c : Cid) (now : Nat) : Option Nat :=
  match course_day_time_mapping c with
  | none => none
  | some info =>
    let s := startSecOfDay info
    let dd0 := (info.day_index + 7 - weekdayOf now) % 7
    let dd := if dd0 = 0 ∧ s < timeOfDayOf now then 7 else dd0
    some (midnightOf now + s + dd * 86400)

/-- `get_registration_time` (src/app.py lines 82-84): 7 minutes before start. -/
def get_registration_time (t : Nat) : Int := (t : Int) - 7 * 60

/-- The occurrence computed inside `course_has_just_started`
(src/app.py lines 98-104): the occurrence of the slot in the seven-day
window starting at midnight of the current day. -/
def thisWeekOccurrence (i : CourseInfo) (now : Nat) : Nat :=
  midnightOf now + startSecOfDay i + ((i.day_index + 7 - weekdayOf now) % 7) * 86400

/-- `course_has_just_started` (src/app.py lines 86-107). -/
def course_has_just_started (c : Cid) (now : Nat) : Bool :=
  match course_day_time_mapping c with
  | none => false
  | some info => decide (((now : Int) - thisWeekOccurrence info now).natAbs ≤ 2500)

/-- `schedule_course_registrations` (src/app.py lines 403-435), restricted to
the computed fire schedule: the list of `(course, fire-time)` pairs that get a
job scheduled. -/
def schedule_course_registrations (now : Nat) : List (Cid × Int) :=
  courseTable.filterMap fun p =>
    match calculate_next_course_time p.1 now with
    | none => none
    | some nextT =>
      if get_registration_time nextT ≤ (now : Int) then none
      else some (p.1, get_registration_time nextT)

/-! ### Credential/State Store (src/app.py lines 109-152) -/

/-- Python `day.startswith("!")`. -/
def startsBang (l : Line) : Bool := l.head? == some '!'

/-- The parse of the third (course-status) line of a credentials file
(src/app.py lines 122-129): bare tokens are registered courses, tokens
prefixed with `!` are excluded ones.  A missing third line is passed in as
`[]`, which lands in the empty-sets branch exactly as in the source. -/
def parseCourseLine (line : Line) : List Cid × List Cid :=
  if pyStrip line ≠ [] then
    let all_days := (pySplit ',' line).map pyStrip
    ((all_days.filter (fun d => !startsBang d)).dedup,
     ((all_days.filter startsBang).map List.tail).dedup)
  else ([], [])

/-- Serialisation of the course-status line (src/app.py lines 140-141 and
379-380): registered ids sorted ascending, then excluded ids sorted ascending
prefixed with `!`, comma-joined with a trailing newline. -/
def serializeCourseLine (reg exc : List Cid) : Line :=
  pyJoin [',', ' '] (sortIds reg ++ (sortIds exc).map (fun d => '!' :: d)) ++ ['\n']

structure LoadResult where
  email : Line
  password : Line
  existing : List Cid
  excluded : List Cid
  lines : List Line
  wrote : Bool
  fileAfter : List Line
deriving DecidableEq

/-- `read_credentials_file` (src/app.py lines 109-152).  `none` models
`sys.exit(1)`; the file is `none` when missing (`FileNotFoundError`) and
otherwise the list of lines produced by `readlines()` (each keeping its
trailing newline).  `fileAfter` is the on-disk content once the call
returns; `wrote` records whether the pruning write-back happened. -/
def read_credentials_file (file : Option (List Line)) (now : Nat) : Option LoadResult :=
  match file with
  | none => none
  | some lines0 =>
    if lines0.length < 2 then none
    else
      let email := pyStrip (lines0.getD 0 [])
      let password := pyStrip (lines0.getD 1 [])
      let parsed := parseCourseLine (lines0.getD 2 [])
      let lines1 := if lines0.length < 3 then lines0 ++ [['\n']] else lines0
      let toRemove := parsed.1.filter (fun c => course_has_just_started c now)
      if toRemove = [] then
        some ⟨email, password, parsed.1, parsed.2, lines1, false, lines0⟩
      else
        let existing2 := parsed.1.filter (fun c => !course_has_just_started c now)
        let newLines := lines1.set 2 (serializeCourseLine existing2 parsed.2)
        some ⟨email, password, existing2, parsed.2, newLines, true, newLines⟩

/-! ### Registration Workflow Engine (src/app.py lines 203-401)

The external browser is modelled by an environment: the list of course
numbers discovered on the page, a script describing how far the UI
interaction for each course gets, a wall clock read at each successive
`check_timeout()` call, and whether the web driver initialises. -/

/-- How the external UI behaves for one course attempt.  `earlyFail` covers
every failure before the mid-attempt timeout check of src/app.py line 333
(index out of bounds, no new window, no booking button, login exception);
`lateFail` an exception in the terms/submit/confirm block; the last three
are the result classification of lines 354-363. -/
inductive Script
  | earlyFail | lateFail | success | alreadyBooked | unknownResult
deriving DecidableEq

/-- The per-course observable of one invocation.  Courses aborted by the
whole-invocation timeout get no entry at all (the loop is abandoned). -/
inductive Outcome
  | skippedExcluded | skippedRegistered | failed | timedOutMid | registered | alreadyRegistered
deriving DecidableEq

structure Env where
  available : List Cid
  script : Cid → Script
  clock : Nat → Nat
  driverOk : Bool

/-- The course loop of `check_and_register_courses` (src/app.py lines
260-375).  `k` counts `check_timeout()` calls; a loop-top timeout (line 262)
raises out of the loop (third component `true`), while a mid-attempt timeout
(line 333) is swallowed by the per-course handler (line 368) and the loop
continues. -/
def runLoop (env : Env) (excluded existing : List Cid) :
    List Cid → Nat → List (Cid × Outcome) → List Cid →
    List (Cid × Outcome) × List Cid × Bool × Nat
  | [], k, acc, signed => (acc, signed, false, k)
  | c :: rest, k, acc, signed =>
    if 900 < env.clock k then (acc, signed, true, k + 1)
    else if c ∈ excluded then
      runLoop env excluded existing rest (k + 1) (acc ++ [(c, Outcome.skippedExcluded)]) signed
    else if c ∈ existing then
      runLoop env excluded existing rest (k + 1) (acc ++ [(c, Outcome.skippedRegistered)]) signed
    else
      match env.script c with
      | Script.earlyFail =>
        runLoop env excluded existing rest (k + 1) (acc ++ [(c, Outcome.failed)]) signed
      | Script.success =>
        if 900 < env.clock (k + 1) then
          runLoop env excluded existing rest (k + 2) (acc ++ [(c, Outcome.timedOutMid)]) signed
        else
          runLoop env excluded existing rest (k + 2) (acc ++ [(c, Outcome.registered)])
            (setAdd signed c)
      | Script.alreadyBooked =>
        if 900 < env.clock (k + 1) then
          runLoop env excluded existing rest (k + 2) (acc ++ [(c, Outcome.timedOutMid)]) signed
        else
          runLoop env excluded existing rest (k + 2) (acc ++ [(c, Outcome.alreadyRegistered)])
            (setAdd signed c)
      | Script.lateFail =>
        if 900 < env.clock (k + 1) then
          runLoop env excluded existing rest (k + 2) (acc ++ [(c, Outcome.timedOutMid)]) signed
        else
          runLoop env excluded existing rest (k + 2) (acc ++ [(c, Outcome.failed)]) signed
      | Script.unknownResult =>
        if 900 < env.clock (k + 1) then
          runLoop env excluded existing rest (k + 2) (acc ++ [(c, Outcome.timedOutMid)]) signed
        else
          runLoop env excluded existing rest (k + 2) (acc ++ [(c, Outcome.failed)]) signed

structure RunResult where
  outcomes : List (Cid × Outcome)
  timedOut : Bool
  persisted : Option (List Cid × List Cid)
  fileAfter : List Line
deriving DecidableEq

/-- `check_and_register_courses` (src/app.py lines 203-401).  `none` models
the `sys.exit(1)` inside `read_credentials_file`.  On a driver-setup failure
or a timeout the update of the credentials file (lines 377-384) is skipped,
because the raised exception is only caught at lines 389-395; `persisted`
records the `(all_days, excluded_days)` pair written, `none` when no write
happens. -/
def check_and_register_courses (env : Env) (file : Option (List Line)) (now : Nat) :
    Option RunResult :=
  match read_credentials_file file now with
  | none => none
  | some L =>
    if env.driverOk = false then some ⟨[], false, none, L.fileAfter⟩
    else if 900 < env.clock 0 then some ⟨[], true, none, L.fileAfter⟩
    else
      let r := runLoop env L.excluded L.existing env.available 1 [] []
      if r.2.2.1 = true then some ⟨r.1, true, none, L.fileAfter⟩
      else
        let allDays := setUnion L.existing r.2.1
        some ⟨r.1, false, some (allDays, L.excluded),
          L.lines.set 2 (serializeCourseLine allDays L.excluded)⟩


/-! ### Concrete instances used by counterexamples and witnesses -/

def c1env : Env :=
  ⟨[cid "051002", cid "051012"], fun _ => Script.success,
    fun k => if 3 ≤ k then 901 else 0, true⟩
def c1file : List Line := [cid "email\n", cid "pw\n", cid "\n"]
def c1run : RunResult := ⟨[(cid "051002", Outcome.registered)], true, none, c1file⟩
def c4file : List Line := [cid "email\n", cid "pw\n", cid "051001\n"]
def c4res : LoadResult :=
  ⟨cid "email", cid "pw", [], [], [cid "email\n", cid "pw\n", cid "\n"], true,
    [cid "email\n", cid "pw\n", cid "\n"]⟩
def c10file : List Line := [cid "email\n", cid "pw\n", cid "051001\n"]
def c10res : LoadResult :=
  ⟨cid "email", cid "pw", [cid "051001"], [], c10file, false, c10file⟩
def c5cexfile : List Line := [cid "email\n", cid "pw\n", cid "051002, !051002\n"]
def c5wfile : List Line := [cid "email\n", cid "pw\n", cid "051001, !051003\n"]
def c5wres : LoadResult :=
  ⟨cid "email", cid "pw", [cid "051001"], [cid "051003"], c5wfile, false, c5wfile⟩
def c6env : Env := ⟨[cid "051001"], fun _ => Script.earlyFail, fun _ => 0, true⟩
def c6file : List Line := [cid "email\n", cid "pw\n", cid "051001\n"]
def c6load : LoadResult :=
  ⟨cid "email", cid "pw", [cid "051001"], [], c6file, false, c6file⟩
def c6run : RunResult :=
  ⟨[(cid "051001", Outcome.skippedRegistered)], false, some ([cid "051001"], []), c6file⟩
def c3cexfile : List Line := [cid "email\n", cid "pw\n", serializeCourseLine [cid "051001"] []]

/-! ### Helper lemmas -/

theorem mapping_cases {c : Cid} {i : CourseInfo} (h : course_day_time_mapping c = some i) :
    (c = cid "051001" ∧ i = ⟨2, 18, 0⟩) ∨ (c = cid "051002" ∧ i = ⟨4, 16, 30⟩) ∨
    (c = cid "051003" ∧ i = ⟨6, 15, 15⟩) ∨ (c = cid "051011" ∧ i = ⟨1, 21, 0⟩) ∨
    (c = cid "051012" ∧ i = ⟨4, 18, 0⟩) ∨ (c = cid "0510011" ∧ i = ⟨2, 18, 30⟩) := by
  simp only [course_day_time_mapping, courseTable, List.lookup] at h
  repeat' split at h
  all_goals simp_all [beq_iff_eq]

theorem mapping_bounds {c : Cid} {i : CourseInfo} (h : course_day_time_mapping c = some i) :
    i.day_index < 7 ∧ startSecOfDay i < 86400 := by
  rcases mapping_cases h with ⟨_, rfl⟩ | ⟨_, rfl⟩ | ⟨_, rfl⟩ | ⟨_, rfl⟩ | ⟨_, rfl⟩ | ⟨_, rfl⟩ <;>
    decide

theorem calc_eq_of_mapping {c : Cid} {i : CourseInfo} (now : Nat)
    (hc : course_day_time_mapping c = some i) :
    calculate_next_course_time c now =
      some (midnightOf now + startSecOfDay i +
        (if (i.day_index + 7 - weekdayOf now) % 7 = 0 ∧ startSecOfDay i < timeOfDayOf now then 7
         else (i.day_index + 7 - weekdayOf now) % 7) * 86400) := by
  unfold calculate_next_course_time
  rw [hc]

/-- C2: for every course id present in the calendar table and every time `now`,
`calculate_next_course_time` returns a timestamp whose weekday and time-of-day
equal the configured slot, which is at least `now`, and which is the earliest
such timestamp (no occurrence of the slot lies strictly between `now` and it). -/
theorem c2_next_occurrence_spec (c : Cid) (i : CourseInfo) (now : Nat)
    (hc : course_day_time_mapping c = some i) :
    ∃ r, calculate_next_course_time c now = some r ∧
      weekdayOf r = i.day_index ∧ timeOfDayOf r = startSecOfDay i ∧ now ≤ r ∧
      ∀ t, weekdayOf t = i.day_index → timeOfDayOf t = startSecOfDay i → now ≤ t → r ≤ t := by
  obtain ⟨hd, hs⟩ := mapping_bounds hc
  refine ⟨_, calc_eq_of_mapping now hc, ?_⟩
  simp only [weekdayOf, timeOfDayOf, midnightOf, startSecOfDay] at *
  split_ifs with hcase <;>
    refine ⟨?_, ?_, ?_, fun t h1 h2 h3 => ?_⟩ <;> omega

/-- C7: for every course id in the calendar and every `now`,
`course_has_just_started` returns true exactly when `now` lies within 2500
seconds of this week's occurrence of the course (the unique occurrence of the
slot in the seven-day window starting at today's midnight) — in particular true
at a distance of exactly 2500 seconds and false at 2501 — and for a course id
not in the calendar it returns false. -/
theorem c7_has_recently_started_spec :
    (∀ c i now, course_day_time_mapping c = some i →
      (course_has_just_started c now = true ↔
        ∃ t : Nat, weekdayOf t = i.day_index ∧ timeOfDayOf t = startSecOfDay i ∧
          midnightOf now ≤ t ∧ t < midnightOf now + 604800 ∧
          ((now : Int) - t).natAbs ≤ 2500)) ∧
    ∀ c now, course_day_time_mapping c = none → course_has_just_started c now = false := by
  constructor
  · intro c i now hc
    obtain ⟨hd, hs⟩ := mapping_bounds hc
    unfold course_has_just_started
    rw [hc]
    simp only [decide_eq_true_eq, thisWeekOccurrence, weekdayOf, timeOfDayOf, midnightOf,
      startSecOfDay] at *
    constructor
    · intro h
      refine ⟨(now - now % 86400) + (3600 * i.hour + 60 * i.minute) +
        ((i.day_index + 7 - now / 86400 % 7) % 7) * 86400, ?_, ?_, ?_, ?_, ?_⟩ <;> omega
    · rintro ⟨t, h1, h2, h3, h4, h5⟩
      omega
  · intro c now hc
    unfold course_has_just_started
    rw [hc]


theorem schedule_mem_dest {c : Cid} {ft : Int} {now : Nat}
    (h : (c, ft) ∈ schedule_course_registrations now) :
    ∃ r, calculate_next_course_time c now = some r ∧ ft = get_registration_time r ∧
      (now : Int) < get_registration_time r := by
  simp only [schedule_course_registrations, List.mem_filterMap] at h
  obtain ⟨p, hp, hfp⟩ := h
  revert hfp
  split
  · intro hfp; cases hfp
  · rename_i r hcalc
    split
    · intro hfp; cases hfp
    · rename_i hle
      intro hfp
      simp only [Option.some.injEq, Prod.mk.injEq] at hfp
      exact ⟨r, hfp.1 ▸ hcalc, hfp.2.symm, by omega⟩

/-- C8: the computed fire schedule at time `now` contains an entry for a
calendar course iff the course's registration deadline — exactly 7 minutes
before its next occurrence — is strictly later than `now`, and every entry for
the course carries exactly that deadline. -/
theorem c8_fire_schedule_iff_deadline_future (c : Cid) (i : CourseInfo) (now : Nat)
    (hc : course_day_time_mapping c = some i) :
    ((∃ ft, (c, ft) ∈ schedule_course_registrations now) ↔
      ∃ r, calculate_next_course_time c now = some r ∧ (now : Int) < get_registration_time r) ∧
    ∀ ft, (c, ft) ∈ schedule_course_registrations now →
      ∃ r, calculate_next_course_time c now = some r ∧ ft = get_registration_time r := by
  have hmem : (c, i) ∈ courseTable := by
    rcases mapping_cases hc with ⟨rfl, rfl⟩ | ⟨rfl, rfl⟩ | ⟨rfl, rfl⟩ | ⟨rfl, rfl⟩ |
      ⟨rfl, rfl⟩ | ⟨rfl, rfl⟩ <;> decide
  refine ⟨⟨fun ⟨ft, hft⟩ => ?_, fun ⟨r, hr, hlt⟩ => ?_⟩, fun ft hft => ?_⟩
  · obtain ⟨r, h1, _, h3⟩ := schedule_mem_dest hft
    exact ⟨r, h1, h3⟩
  · refine ⟨get_registration_time r, ?_⟩
    simp only [schedule_course_registrations, List.mem_filterMap]
    refine ⟨(c, i), hmem, ?_⟩
    dsimp only
    rw [hr]
    show (if get_registration_time r ≤ (now : Int) then none
      else some (c, get_registration_time r)) = some (c, get_registration_time r)
    rw [if_neg (not_le.mpr hlt)]
  · obtain ⟨r, h1, h2, _⟩ := schedule_mem_dest hft
    exact ⟨r, h1, h2⟩

theorem pySplit_ne_nil (sep : Char) (l : Line) : pySplit sep l ≠ [] := by
  cases l with
  | nil => simp [pySplit]
  | cons c rest =>
    unfold pySplit
    cases h : pySplit sep rest with
    | nil => simp
    | cons t ts => by_cases hc : c = sep <;> simp [hc]

theorem pySplit_append {sep : Char} {t l : Line} {h : Line} {tl : List Line}
    (hsep : sep ∉ t) (hl : pySplit sep l = h :: tl) :
    pySplit sep (t ++ l) = (t ++ h) :: tl := by
  induction t with
  | nil => simpa using hl
  | cons c t ih =>
    have hc : ¬ c = sep := fun e => hsep (e ▸ List.mem_cons_self ..)
    have ht : sep ∉ t := fun hm => hsep (List.mem_cons_of_mem _ hm)
    simp only [List.cons_append]
    unfold pySplit
    rw [ih ht]
    simp [hc]

theorem pySplit_no_sep {sep : Char} {l : Line} (h : sep ∉ l) : pySplit sep l = [l] := by
  have := pySplit_append (l := []) (t := l) h rfl
  simpa using this

theorem pySplit_cons_of_ne (sep c : Char) (hcs : ¬ c = sep) (l : Line) {h2 : Line}
    {tl : List Line} (hl : pySplit sep l = h2 :: tl) :
    pySplit sep (c :: l) = (c :: h2) :: tl := by
  have := pySplit_append (t := [c]) (by simpa using Ne.symm hcs) hl
  simpa using this

theorem pySplit_cons_sep (sep : Char) (l : Line) :
    pySplit sep (sep :: l) = [] :: pySplit sep l := by
  cases h : pySplit sep l with
  | nil => exact absurd h (pySplit_ne_nil sep l)
  | cons t ts =>
    conv_lhs => unfold pySplit
    rw [h]
    simp

theorem dropWhile_all_false {p : Char → Bool} {l : Line}
    (h : ∀ c ∈ l, p c = false) : l.dropWhile p = l := by
  cases l with
  | nil => rfl
  | cons a l =>
    rw [List.dropWhile_cons_of_neg]
    simp [h a (List.mem_cons_self ..)]

theorem pyStrip_clean {t : Line} (h : ∀ c ∈ t, isPyWs c = false) : pyStrip t = t := by
  unfold pyStrip
  rw [dropWhile_all_false h, dropWhile_all_false (by simp; exact fun c hc => h c hc),
    List.reverse_reverse]

theorem pyStrip_clean_nl {t : Line} (h : ∀ c ∈ t, isPyWs c = false) :
    pyStrip (t ++ ['\n']) = t := by
  cases t with
  | nil => rfl
  | cons a t =>
    unfold pyStrip
    rw [List.cons_append, List.dropWhile_cons_of_neg
      (by simp [h a (List.mem_cons_self ..)])]
    rw [show (a :: (t ++ ['\n'])).reverse = '\n' :: (a :: t).reverse by simp]
    rw [List.dropWhile_cons_of_pos (by decide)]
    rw [dropWhile_all_false
      (by simp only [List.mem_reverse]; exact fun c hc => h c hc), List.reverse_reverse]

theorem pyStrip_space (l : Line) : pyStrip (' ' :: l) = pyStrip l := by
  unfold pyStrip
  rw [List.dropWhile_cons_of_pos (by decide)]

theorem exists_notws_dropWhile {p : Char → Bool} {l : Line} (h : ∃ c ∈ l, p c = false) :
    ∃ c ∈ l.dropWhile p, p c = false := by
  induction l with
  | nil => simp at h
  | cons a l ih =>
    by_cases ha : p a
    · rw [List.dropWhile_cons_of_pos ha]
      apply ih
      obtain ⟨c, hc, hpc⟩ := h
      rcases List.mem_cons.mp hc with rfl | hc
      · rw [ha] at hpc; cases hpc
      · exact ⟨c, hc, hpc⟩
    · rw [List.dropWhile_cons_of_neg ha]
      exact ⟨a, List.mem_cons_self .., by simpa using ha⟩

theorem pyStrip_ne_nil {l : Line} (h : ∃ c ∈ l, isPyWs c = false) : pyStrip l ≠ [] := by
  intro hcontra
  unfold pyStrip at hcontra
  rw [List.reverse_eq_nil_iff] at hcontra
  have h1 := exists_notws_dropWhile (p := isPyWs) h
  have h2 : ∃ c ∈ (l.dropWhile isPyWs).reverse, isPyWs c = false := by
    obtain ⟨c, hc, hpc⟩ := h1
    exact ⟨c, by simpa using hc, hpc⟩
  have h3 := exists_notws_dropWhile h2
  rw [hcontra] at h3
  simp at h3

theorem split_join_strip (ts : List Line) (hne : ts ≠ [])
    (hctok : ∀ t ∈ ts, (t ≠ [] ∧ ∀ c ∈ t, isPyWs c = false) ∧ ',' ∉ t) :
    (pySplit ',' (pyJoin [',', ' '] ts ++ ['\n'])).map pyStrip = ts := by
  induction ts with
  | nil => simp at hne
  | cons t ts ih =>
    cases ts with
    | nil =>
      obtain ⟨⟨hne1, hclean1⟩, hcomma1⟩ := hctok t (by simp)
      have hnc : ',' ∉ t ++ ['\n'] := by
        simp [hcomma1]
      rw [show pyJoin [',', ' '] [t] = t from rfl]
      rw [pySplit_no_sep hnc]
      simp [pyStrip_clean_nl hclean1]
    | cons t2 ts2 =>
      obtain ⟨⟨hne1, hclean1⟩, hcomma1⟩ := hctok t (by simp)
      have ihr := ih (by simp) (fun u hu => hctok u (List.mem_cons_of_mem _ hu))
      rw [show pyJoin [',', ' '] (t :: t2 :: ts2)
        = t ++ [',', ' '] ++ pyJoin [',', ' '] (t2 :: ts2) from rfl]
      have hassoc : (t ++ [',', ' '] ++ pyJoin [',', ' '] (t2 :: ts2)) ++ ['\n']
          = t ++ (',' :: ' ' :: (pyJoin [',', ' '] (t2 :: ts2) ++ ['\n'])) := by simp
      rw [hassoc]
      cases hsp : pySplit ',' (pyJoin [',', ' '] (t2 :: ts2) ++ ['\n']) with
      | nil => exact absurd hsp (pySplit_ne_nil _ _)
      | cons h2 tl2 =>
        have hsp2 := pySplit_cons_of_ne ',' ' ' (by decide) _ hsp
        have hsp3 : pySplit ',' (',' :: (' ' :: (pyJoin [',', ' '] (t2 :: ts2) ++ ['\n'])))
            = [] :: (' ' :: h2) :: tl2 := by
          rw [pySplit_cons_sep, hsp2]
        rw [pySplit_append hcomma1 hsp3]
        rw [hsp] at ihr
        simp only [List.map_cons] at ihr ⊢
        rw [List.append_nil, pyStrip_clean hclean1, pyStrip_space]
        exact congrArg (List.cons t) ihr

theorem mem_sortIds {l : List Cid} {x : Cid} : x ∈ sortIds l ↔ x ∈ l :=
  List.mem_insertionSort _

theorem sortIds_eq_nil {l : List Cid} (h : sortIds l = []) : l = [] := by
  have hlen := List.length_insertionSort (r := fun a b => lexLe a b = true) l
  rw [show List.insertionSort (fun a b => lexLe a b = true) l = sortIds l from rfl, h] at hlen
  exact List.eq_nil_of_length_eq_zero hlen.symm

theorem mem_pyJoin {sep : Line} {ts : List Line} {t : Line} (ht : t ∈ ts) {c : Char}
    (hc : c ∈ t) : c ∈ pyJoin sep ts := by
  induction ht with
  | head l =>
    cases l with
    | nil => exact hc
    | cons t2 ts2 => exact List.mem_append_left _ (List.mem_append_left _ hc)
  | tail b ht ih =>
    rename_i l
    cases l with
    | nil => cases ht
    | cons t2 ts2 => exact List.mem_append_right _ ih

theorem plain_clean {t : Cid} (h : PlainId t) :
    (t ≠ [] ∧ ∀ c ∈ t, isPyWs c = false) ∧ ',' ∉ t := by
  obtain ⟨h1, _, h3⟩ := h
  exact ⟨⟨h1, fun c hc => (h3 c hc).1⟩, fun hm => (h3 ',' hm).2 rfl⟩

theorem plain_bang_clean {t : Cid} (h : PlainId t) :
    ('!' :: t ≠ [] ∧ ∀ c ∈ '!' :: t, isPyWs c = false) ∧ ',' ∉ '!' :: t := by
  obtain ⟨h1, _, h3⟩ := h
  refine ⟨⟨by simp, fun c hc => ?_⟩, fun hm => ?_⟩
  · rcases List.mem_cons.mp hc with rfl | hc
    · decide
    · exact (h3 c hc).1
  · rcases List.mem_cons.mp hm with h | h
    · cases h
    · exact (h3 ',' h).2 rfl

theorem parse_serialize (reg exc : List Cid)
    (hreg : ∀ t ∈ reg, PlainId t) (hexc : ∀ t ∈ exc, PlainId t) :
    (parseCourseLine (serializeCourseLine reg exc)).1.toFinset = reg.toFinset ∧
    (parseCourseLine (serializeCourseLine reg exc)).2.toFinset = exc.toFinset := by
  unfold serializeCourseLine parseCourseLine
  by_cases hempty : sortIds reg ++ (sortIds exc).map (fun d => '!' :: d) = []
  · obtain ⟨he1, he2⟩ := List.append_eq_nil.mp hempty
    have hr0 : reg = [] := sortIds_eq_nil he1
    have he0 : exc = [] := sortIds_eq_nil (by simpa using he2)
    rw [hempty]
    rw [if_neg (by decide)]
    subst hr0 he0
    simp
  · have hcleans : ∀ t ∈ sortIds reg ++ (sortIds exc).map (fun d => '!' :: d),
        (t ≠ [] ∧ ∀ c ∈ t, isPyWs c = false) ∧ ',' ∉ t := by
      intro t ht
      rcases List.mem_append.mp ht with h | h
      · exact plain_clean (hreg t (mem_sortIds.mp h))
      · obtain ⟨d, hd, rfl⟩ := List.mem_map.mp h
        exact plain_bang_clean (hexc d (mem_sortIds.mp hd))
    have hsjs := split_join_strip _ hempty hcleans
    have hne2 : pyStrip (pyJoin [',', ' ']
        (sortIds reg ++ (sortIds exc).map (fun d => '!' :: d)) ++ ['\n']) ≠ [] := by
      apply pyStrip_ne_nil
      cases hts : sortIds reg ++ (sortIds exc).map (fun d => '!' :: d) with
      | nil => exact absurd hts hempty
      | cons t0 ts0 =>
        have ht0 : t0 ∈ sortIds reg ++ (sortIds exc).map (fun d => '!' :: d) := by
          rw [hts]; exact List.mem_cons_self ..
        obtain ⟨⟨hne0, hcl0⟩, _⟩ := hcleans t0 ht0
        cases t0 with
        | nil => exact absurd rfl hne0
        | cons c0 t0' =>
          refine ⟨c0, ?_, hcl0 c0 (List.mem_cons_self ..)⟩
          exact List.mem_append_left _
            (mem_pyJoin (List.mem_cons_self ..) (List.mem_cons_self ..))
    rw [if_pos hne2, hsjs]
    have hfilter1 : (sortIds reg).filter (fun d => !startsBang d) = sortIds reg := by
      apply List.filter_eq_self.mpr
      intro a ha
      have := (hreg a (mem_sortIds.mp ha)).2.1
      simp [startsBang, this]
    have hfilter2 : ((sortIds exc).map (fun d => '!' :: d)).filter (fun d => !startsBang d)
        = [] := by
      rw [List.filter_eq_nil_iff]
      intro a ha
      obtain ⟨d, _, rfl⟩ := List.mem_map.mp ha
      simp [startsBang]
    have hfilter3 : (sortIds reg).filter startsBang = [] := by
      rw [List.filter_eq_nil_iff]
      intro a ha
      have := (hreg a (mem_sortIds.mp ha)).2.1
      simp [startsBang, this]
    have hfilter4 : ((sortIds exc).map (fun d => '!' :: d)).filter startsBang
        = (sortIds exc).map (fun d => '!' :: d) := by
      apply List.filter_eq_self.mpr
      intro a ha
      obtain ⟨d, _, rfl⟩ := List.mem_map.mp ha
      simp [startsBang]
    simp only [List.filter_append, hfilter1, hfilter2, hfilter3, hfilter4]
    constructor
    · ext x
      simp only [List.mem_toFinset, List.mem_dedup, List.append_nil, mem_sortIds]
    · ext x
      simp only [List.mem_toFinset, List.mem_dedup, List.nil_append, List.map_map,
        List.mem_map, Function.comp]
      constructor
      · rintro ⟨d, hd, rfl⟩
        simpa using mem_sortIds.mp hd
      · intro hx
        exact ⟨x, mem_sortIds.mpr hx, rfl⟩


theorem getD_set_self {l : List Line} {v : Line} (h : 2 < l.length) :
    (l.set 2 v).getD 2 [] = v := by
  simp [List.getD, List.getElem?_set_eq_of_lt _ h]

/-- C9: loading an account record fails fatally (`sys.exit(1)`, modelled as
`none`) exactly when the credentials file is missing or contains fewer than 2
lines, and in that case the whole engine invocation terminates before any
workflow step (it also returns `none`). -/
theorem c9_load_failure_fatal (file : Option (List Line)) (now : Nat) :
    (read_credentials_file file now = none ↔
      file = none ∨ ∃ ls, file = some ls ∧ ls.length < 2) ∧
    ∀ env, (check_and_register_courses env file now = none ↔
      read_credentials_file file now = none) := by
  constructor
  · cases file with
    | none => simp [read_credentials_file]
    | some ls =>
      simp only [read_credentials_file]
      by_cases h : ls.length < 2
      · simp [h]
      · rw [if_neg h]
        constructor
        · intro hc
          split at hc <;> cases hc
        · rintro (hl | ⟨ls2, hl, hlen⟩)
          · cases hl
          · cases hl
            exact absurd hlen h
  · intro env
    unfold check_and_register_courses
    cases hr : read_credentials_file file now with
    | none => simp
    | some L =>
      simp only [Option.some.injEq]
      split_ifs <;> simp

/-- C4: on every load, every parsed registered course for which
`course_has_just_started` holds at load time is removed from the registered set
the load returns, and the updated record is written back to the file before the
load returns (the stored course line is the serialisation of the pruned sets). -/
theorem c4_load_prunes_just_started (ls : List Line) (now : Nat) (L : LoadResult) (c : Cid)
    (h : read_credentials_file (some ls) now = some L)
    (hc : c ∈ (parseCourseLine (ls.getD 2 [])).1)
    (hjs : course_has_just_started c now = true) :
    c ∉ L.existing ∧ L.wrote = true ∧ L.fileAfter = L.lines ∧
      L.lines.getD 2 [] = serializeCourseLine L.existing L.excluded := by
  by_cases hlen : ls.length < 2
  · simp only [read_credentials_file, if_pos hlen] at h
    cases h
  · simp only [read_credentials_file, if_neg hlen] at h
    split at h
    · rename_i hrem
      exact absurd hjs (List.filter_eq_nil_iff.mp hrem c hc)
    · cases h
      refine ⟨?_, rfl, rfl, ?_⟩
      · intro hmem
        have := (List.mem_filter.mp hmem).2
        simp [hjs] at this
      · apply getD_set_self
        split
        · rename_i h3
          simp only [List.length_append, List.length_cons, List.length_nil]
          omega
        · rename_i h3
          omega

/-- C10: if no registered course of the credentials file satisfies
`course_has_just_started` at load time, the load performs no write at all — the
file's contents are left exactly as they were — and it returns just the parsed
email, password, registered set and excluded set. -/
theorem c10_no_prune_no_write (ls : List Line) (now : Nat) (L : LoadResult)
    (h : read_credentials_file (some ls) now = some L)
    (hnone : ∀ c ∈ (parseCourseLine (ls.getD 2 [])).1, course_has_just_started c now = false) :
    L.wrote = false ∧ L.fileAfter = ls ∧
      L.existing = (parseCourseLine (ls.getD 2 [])).1 ∧
      L.excluded = (parseCourseLine (ls.getD 2 [])).2 ∧
      L.email = pyStrip (ls.getD 0 []) ∧ L.password = pyStrip (ls.getD 1 []) := by
  by_cases hlen : ls.length < 2
  · simp only [read_credentials_file, if_pos hlen] at h
    cases h
  · simp only [read_credentials_file, if_neg hlen] at h
    split at h
    · cases h
      exact ⟨rfl, rfl, rfl, rfl, rfl, rfl⟩
    · rename_i hrem
      exfalso
      apply hrem
      rw [List.filter_eq_nil_iff]
      intro a ha
      simp [hnone a ha]

/-- C3 (amended): the course line for registered = {051001, 051011} and
excluded = {051003} serialises exactly to `051001, 051011, !051003`; and for
every pair of sets of plain course ids, loading what was saved reproduces both
sets — provided no registered course is inside the just-started window at load
time, since pruning (claim C4) would remove it. -/
theorem c3_save_load_roundtrip (reg exc : List Cid) (l0 l1 : Line) (now : Nat)
    (hreg : ∀ t ∈ reg, PlainId t) (hexc : ∀ t ∈ exc, PlainId t)
    (hnp : ∀ c ∈ reg, course_has_just_started c now = false) :
    serializeCourseLine [cid "051001", cid "051011"] [cid "051003"]
      = cid "051001, 051011, !051003\n" ∧
    ∃ L, read_credentials_file (some [l0, l1, serializeCourseLine reg exc]) now = some L ∧
      L.existing.toFinset = reg.toFinset ∧ L.excluded.toFinset = exc.toFinset ∧
      L.wrote = false := by
  obtain ⟨hp1, hp2⟩ := parse_serialize reg exc hreg hexc
  have hsub : ∀ x ∈ (parseCourseLine (serializeCourseLine reg exc)).1, x ∈ reg := by
    intro x hx
    have := List.mem_toFinset.mpr hx
    rw [hp1] at this
    exact List.mem_toFinset.mp this
  have hrem : (parseCourseLine (serializeCourseLine reg exc)).1.filter
      (fun c => course_has_just_started c now) = [] := by
    rw [List.filter_eq_nil_iff]
    intro a ha
    simp [hnp a (hsub a ha)]
  refine ⟨by decide, ⟨pyStrip l0, pyStrip l1,
    (parseCourseLine (serializeCourseLine reg exc)).1,
    (parseCourseLine (serializeCourseLine reg exc)).2,
    [l0, l1, serializeCourseLine reg exc], false,
    [l0, l1, serializeCourseLine reg exc]⟩, ?_, hp1, hp2, rfl⟩
  simp only [read_credentials_file]
  rw [if_neg (by simp)]
  rw [show ([l0, l1, serializeCourseLine reg exc].getD 2 [])
    = serializeCourseLine reg exc from rfl]
  rw [if_pos hrem]
  rw [if_neg (by simp)]
  rfl


theorem mem_setAdd {s : List Cid} {c x : Cid} : x ∈ setAdd s c ↔ x ∈ s ∨ x = c := by
  unfold setAdd
  split
  · rename_i hcs
    constructor
    · exact fun h => Or.inl h
    · rintro (h | rfl)
      · exact h
      · exact hcs
  · simp

theorem setAdd_nodup {s : List Cid} {c : Cid} (h : s.Nodup) : (setAdd s c).Nodup := by
  unfold setAdd
  split
  · exact h
  · rename_i hcs
    simp [List.nodup_append, h, hcs]

theorem mem_setUnion {a b : List Cid} {x : Cid} : x ∈ setUnion a b ↔ x ∈ a ∨ x ∈ b := by
  unfold setUnion
  simp only [List.mem_append, List.mem_filter, decide_eq_true_eq]
  by_cases hx : x ∈ a <;> simp [hx]

theorem setUnion_nodup {a b : List Cid} (ha : a.Nodup) (hb : b.Nodup) :
    (setUnion a b).Nodup := by
  unfold setUnion
  rw [List.nodup_append]
  refine ⟨ha, hb.filter _, fun x hx hx2 => ?_⟩
  have := (List.mem_filter.mp hx2).2
  simp only [decide_eq_true_eq] at this
  exact this hx

theorem runLoop_no_timeout (env : Env) (excluded existing : List Cid)
    (hnt : ∀ k, env.clock k ≤ 900) :
    ∀ avail k acc signed,
      (runLoop env excluded existing avail k acc signed).2.2.1 = false := by
  intro avail
  induction avail with
  | nil => intro k acc signed; rfl
  | cons c rest ih =>
    intro k acc signed
    unfold runLoop
    rw [if_neg (by have := hnt k; omega)]
    split
    · exact ih ..
    split
    · exact ih ..
    split
    all_goals first
      | exact ih ..
      | (split <;> exact ih ..)

theorem runLoop_acc_mono (env : Env) (excluded existing : List Cid) :
    ∀ avail k acc signed e, e ∈ acc →
      e ∈ (runLoop env excluded existing avail k acc signed).1 := by
  intro avail
  induction avail with
  | nil => intro k acc signed e he; exact he
  | cons c rest ih =>
    intro k acc signed e he
    unfold runLoop
    split
    · exact he
    split
    · exact ih _ _ _ _ (List.mem_append_left _ he)
    split
    · exact ih _ _ _ _ (List.mem_append_left _ he)
    split
    all_goals first
      | exact ih _ _ _ _ (List.mem_append_left _ he)
      | (split <;> exact ih _ _ _ _ (List.mem_append_left _ he))

theorem runLoop_skipped_mem (env : Env) (excluded existing : List Cid) (X : Cid)
    (hnt : ∀ k, env.clock k ≤ 900) (hXe : X ∉ excluded) (hX : X ∈ existing) :
    ∀ avail k acc signed, X ∈ avail →
      (X, Outcome.skippedRegistered) ∈ (runLoop env excluded existing avail k acc signed).1 := by
  intro avail
  induction avail with
  | nil => intro k acc signed h; cases h
  | cons c rest ih =>
    intro k acc signed hmem
    unfold runLoop
    rw [if_neg (by have := hnt k; omega)]
    rcases List.mem_cons.mp hmem with rfl | hmem2
    · rw [if_neg hXe, if_pos hX]
      exact runLoop_acc_mono _ _ _ _ _ _ _ _
        (List.mem_append_right _ (List.mem_singleton.mpr rfl))
    · split
      · exact ih _ _ _ hmem2
      split
      · exact ih _ _ _ hmem2
      split
      all_goals first
        | exact ih _ _ _ hmem2
        | (split <;> exact ih _ _ _ hmem2)

theorem runLoop_outcome_unique (env : Env) (excluded existing : List Cid) (X : Cid)
    (hXe : X ∉ excluded) (hX : X ∈ existing) :
    ∀ avail k acc signed, (∀ o, (X, o) ∈ acc → o = Outcome.skippedRegistered) →
      ∀ o, (X, o) ∈ (runLoop env excluded existing avail k acc signed).1 →
        o = Outcome.skippedRegistered := by
  intro avail
  induction avail with
  | nil => intro k acc signed hacc o ho; exact hacc o ho
  | cons c rest ih =>
    intro k acc signed hacc o ho
    have hstep : ∀ (out : Outcome), (c = X → out = Outcome.skippedRegistered) →
        ∀ o2, (X, o2) ∈ acc ++ [(c, out)] → o2 = Outcome.skippedRegistered := by
      intro out hout o2 ho2
      rcases List.mem_append.mp ho2 with h | h
      · exact hacc o2 h
      · have hpair := List.mem_singleton.mp h
        have hcX : c = X := (congrArg Prod.fst hpair).symm
        have ho2eq : o2 = out := congrArg Prod.snd hpair
        rw [ho2eq]
        exact hout hcX
    revert ho
    unfold runLoop
    split
    · exact fun ho => hacc o ho
    split
    · rename_i hcex
      exact fun ho => ih _ _ _ (hstep _ (fun hcX => absurd (hcX ▸ hcex) hXe)) o ho
    split
    · exact fun ho => ih _ _ _ (hstep _ (fun _ => rfl)) o ho
    rename_i hcex hcn
    have hcX : ¬ c = X := fun hcX => absurd (hcX ▸ hX) hcn
    split
    all_goals first
      | exact fun ho => ih _ _ _ (hstep _ (fun h => absurd h hcX)) o ho
      | (split <;> exact fun ho => ih _ _ _ (hstep _ (fun h => absurd h hcX)) o ho)

theorem runLoop_signed_char (env : Env) (excluded existing : List Cid) :
    ∀ avail k acc signed x, x ∈ (runLoop env excluded existing avail k acc signed).2.1 →
      x ∈ signed ∨ (x ∈ avail ∧ x ∉ excluded ∧ x ∉ existing) := by
  intro avail
  induction avail with
  | nil => intro k acc signed x hx; exact Or.inl hx
  | cons c rest ih =>
    intro k acc signed x hx
    have hlift : x ∈ signed ∨ (x ∈ rest ∧ x ∉ excluded ∧ x ∉ existing) →
        x ∈ signed ∨ (x ∈ c :: rest ∧ x ∉ excluded ∧ x ∉ existing) := by
      rintro (h | ⟨h1, h2, h3⟩)
      · exact Or.inl h
      · exact Or.inr ⟨List.mem_cons_of_mem _ h1, h2, h3⟩
    revert hx
    unfold runLoop
    split
    · exact fun hx => Or.inl hx
    split
    · exact fun hx => hlift (ih _ _ _ _ hx)
    split
    · exact fun hx => hlift (ih _ _ _ _ hx)
    rename_i hcex hcn
    split
    all_goals first
      | exact fun hx => hlift (ih _ _ _ _ hx)
      | (split <;> exact fun hx => hlift (ih _ _ _ _ hx))
      | (split
         · exact fun hx => hlift (ih _ _ _ _ hx)
         · intro hx
           rcases ih _ _ _ _ hx with h | ⟨h1, h2, h3⟩
           · rcases mem_setAdd.mp h with h2 | rfl
             · exact Or.inl h2
             · exact Or.inr ⟨List.mem_cons_self .., hcex, hcn⟩
           · exact Or.inr ⟨List.mem_cons_of_mem _ h1, h2, h3⟩)

theorem runLoop_signed_nodup (env : Env) (excluded existing : List Cid) :
    ∀ avail k acc signed, signed.Nodup →
      (runLoop env excluded existing avail k acc signed).2.1.Nodup := by
  intro avail
  induction avail with
  | nil => intro k acc signed h; exact h
  | cons c rest ih =>
    intro k acc signed h
    unfold runLoop
    split
    · exact h
    split
    · exact ih _ _ _ h
    split
    · exact ih _ _ _ h
    split
    all_goals first
      | exact ih _ _ _ h
      | (split <;> exact ih _ _ _ h)
      | (split
         · exact ih _ _ _ h
         · exact ih _ _ _ (setAdd_nodup h))

theorem parse_nodup (line : Line) :
    (parseCourseLine line).1.Nodup ∧ (parseCourseLine line).2.Nodup := by
  unfold parseCourseLine
  split
  · exact ⟨List.nodup_dedup _, List.nodup_dedup _⟩
  · exact ⟨List.nodup_nil, List.nodup_nil⟩

theorem read_elim {ls : List Line} {now : Nat} {L : LoadResult}
    (h : read_credentials_file (some ls) now = some L) :
    L.existing = (parseCourseLine (ls.getD 2 [])).1.filter
      (fun c => !course_has_just_started c now) ∧
    L.excluded = (parseCourseLine (ls.getD 2 [])).2 ∧
    3 ≤ L.lines.length ∧ L.existing.Nodup ∧ L.excluded.Nodup := by
  by_cases hlen : ls.length < 2
  · simp only [read_credentials_file, if_pos hlen] at h
    cases h
  · simp only [read_credentials_file, if_neg hlen] at h
    have hlines1 : 3 ≤ (if ls.length < 3 then ls ++ [['\n']] else ls).length := by
      split
      · rename_i h3
        simp only [List.length_append, List.length_cons, List.length_nil]
        omega
      · rename_i h3
        omega
    split at h
    · rename_i hrem
      cases h
      refine ⟨?_, rfl, hlines1, ?_, (parse_nodup _).2⟩
      · dsimp only
        symm
        rw [List.filter_eq_self]
        intro a ha
        simp [List.filter_eq_nil_iff.mp hrem a ha]
      · exact (parse_nodup _).1
    · cases h
      refine ⟨rfl, rfl, ?_, (parse_nodup _).1.filter _, (parse_nodup _).2⟩
      simpa [List.length_set] using hlines1

theorem run_elim {env : Env} {file : Option (List Line)} {now : Nat} {r : RunResult}
    (h : check_and_register_courses env file now = some r) :
    ∃ L, read_credentials_file file now = some L := by
  unfold check_and_register_courses at h
  cases hL : read_credentials_file file now with
  | none => rw [hL] at h; cases h
  | some L => exact ⟨L, rfl⟩

theorem run_already_registered {env : Env} {file : Option (List Line)} {now : Nat}
    {L : LoadResult} {r : RunResult} {X : Cid}
    (hL : read_credentials_file file now = some L)
    (hr : check_and_register_courses env file now = some r)
    (hnt : ∀ k, env.clock k ≤ 900) (hd : env.driverOk = true)
    (hX : X ∈ L.existing) (hXe : X ∉ L.excluded) (hXa : X ∈ env.available) :
    (X, Outcome.skippedRegistered) ∈ r.outcomes ∧
    (∀ o, (X, o) ∈ r.outcomes → o = Outcome.skippedRegistered) ∧
    r.timedOut = false ∧
    ∃ A, r.persisted = some (A, L.excluded) ∧ X ∈ A ∧
      (L.existing.Nodup → A.Nodup) ∧
      r.fileAfter = L.lines.set 2 (serializeCourseLine A L.excluded) ∧
      (∀ t ∈ A, t ∈ L.existing ∨ (t ∈ env.available ∧ t ∉ L.excluded ∧ t ∉ L.existing)) := by
  simp only [check_and_register_courses, hL] at hr
  rw [if_neg (by simp [hd])] at hr
  rw [if_neg (by have := hnt 0; omega)] at hr
  have hto := runLoop_no_timeout env L.excluded L.existing hnt env.available 1 [] []
  rw [if_neg (by simp [hto])] at hr
  cases hr
  refine ⟨runLoop_skipped_mem env _ _ X hnt hXe hX _ _ _ _ hXa,
    runLoop_outcome_unique env _ _ X hXe hX _ _ _ _ (by simp) , rfl, _, rfl,
    mem_setUnion.mpr (Or.inl hX), ?_, rfl, ?_⟩
  · intro hnd
    exact setUnion_nodup hnd (runLoop_signed_nodup env _ _ _ _ _ _ List.nodup_nil)
  · intro t ht
    rcases mem_setUnion.mp ht with h | h
    · exact Or.inl h
    · rcases runLoop_signed_char env _ _ _ _ _ _ _ h with h2 | h2
      · cases h2
      · exact Or.inr h2

/-- C6: invoking the Workflow Engine twice in succession for an account whose
registered set already contains course X (X discoverable on the page, not
excluded, not in the just-started window between the runs, plain id, no timeout
and a working driver) yields the already-registered skip for X both times —
never a booking attempt and never an error — and X lies in the duplicate-free
registered set persisted after each of the two runs. -/
theorem c6_already_registered_idempotent (env1 env2 : Env) (ls : List Line) (now1 now2 : Nat)
    (X : Cid) (L1 : LoadResult) (r1 r2 : RunResult)
    (hL1 : read_credentials_file (some ls) now1 = some L1)
    (hr1 : check_and_register_courses env1 (some ls) now1 = some r1)
    (hr2 : check_and_register_courses env2 (some r1.fileAfter) now2 = some r2)
    (hnt1 : ∀ k, env1.clock k ≤ 900) (hd1 : env1.driverOk = true) (hXa1 : X ∈ env1.available)
    (hnt2 : ∀ k, env2.clock k ≤ 900) (hd2 : env2.driverOk = true) (hXa2 : X ∈ env2.available)
    (hX : X ∈ L1.existing) (hXe : X ∉ L1.excluded)
    (hjs2 : course_has_just_started X now2 = false)
    (hplainEx : ∀ t ∈ L1.existing, PlainId t) (hplainExc : ∀ t ∈ L1.excluded, PlainId t)
    (hplainAv : ∀ t ∈ env1.available, PlainId t) :
    ((X, Outcome.skippedRegistered) ∈ r1.outcomes ∧
      ∀ o, (X, o) ∈ r1.outcomes → o = Outcome.skippedRegistered) ∧
    ((X, Outcome.skippedRegistered) ∈ r2.outcomes ∧
      ∀ o, (X, o) ∈ r2.outcomes → o = Outcome.skippedRegistered) ∧
    (∃ A1 E1, r1.persisted = some (A1, E1) ∧ X ∈ A1 ∧ A1.Nodup) ∧
    (∃ A2 E2, r2.persisted = some (A2, E2) ∧ X ∈ A2 ∧ A2.Nodup) := by
  obtain ⟨hmem1, huniq1, hto1, A1, hpers1, hXA1, hnodA1, hfile1, hchar1⟩ :=
    run_already_registered hL1 hr1 hnt1 hd1 hX hXe hXa1
  obtain ⟨he1, hexc1, hlen1, hnd1, hnde1⟩ := read_elim hL1
  have hplainA1 : ∀ t ∈ A1, PlainId t := by
    intro t ht
    rcases hchar1 t ht with h | ⟨h, _, _⟩
    · exact hplainEx t h
    · exact hplainAv t h
  obtain ⟨L2, hL2⟩ := run_elim hr2
  have hget2 : (r1.fileAfter.getD 2 []) = serializeCourseLine A1 L1.excluded := by
    rw [hfile1]
    exact getD_set_self (by omega)
  obtain ⟨hp1, hp2⟩ := parse_serialize A1 L1.excluded hplainA1 hplainExc
  obtain ⟨he2, hexc2, hlen2, hnd2, hnde2⟩ := read_elim hL2
  have hXparsed : X ∈ (parseCourseLine (r1.fileAfter.getD 2 [])).1 := by
    rw [hget2]
    exact List.mem_toFinset.mp (hp1 ▸ List.mem_toFinset.mpr hXA1)
  have hX2 : X ∈ L2.existing := by
    rw [he2]
    exact List.mem_filter.mpr ⟨hXparsed, by simp [hjs2]⟩
  have hXe2 : X ∉ L2.excluded := by
    rw [hexc2, hget2]
    intro hmem
    have hm2 := List.mem_toFinset.mpr hmem
    rw [hp2] at hm2
    exact hXe (List.mem_toFinset.mp hm2)
  obtain ⟨hmem2, huniq2, hto2, A2, hpers2, hXA2, hnodA2, hfile2, hchar2⟩ :=
    run_already_registered hL2 hr2 hnt2 hd2 hX2 hXe2 hXa2
  exact ⟨⟨hmem1, huniq1⟩, ⟨hmem2, huniq2⟩,
    ⟨A1, L1.excluded, hpers1, hXA1, hnodA1 hnd1⟩,
    ⟨A2, L2.excluded, hpers2, hXA2, hnodA2 hnd2⟩⟩

/-- C5 (amended): disjointness is preserved rather than enforced — a loaded
record satisfies registered ∩ excluded = ∅ whenever the parsed course line
does (pruning only removes registered entries), and the record persisted by a
workflow run is disjoint whenever the loaded record was, because newly
signed-up courses are never excluded ones. -/
theorem c5_disjointness_amended :
    (∀ ls now L, read_credentials_file (some ls) now = some L →
      (parseCourseLine (ls.getD 2 [])).1.toFinset ∩
        (parseCourseLine (ls.getD 2 [])).2.toFinset = ∅ →
      L.existing.toFinset ∩ L.excluded.toFinset = ∅) ∧
    (∀ env ls now L r A E, read_credentials_file (some ls) now = some L →
      check_and_register_courses env (some ls) now = some r →
      L.existing.toFinset ∩ L.excluded.toFinset = ∅ →
      r.persisted = some (A, E) → A.toFinset ∩ E.toFinset = ∅) := by
  constructor
  · intro ls now L h hdisj
    obtain ⟨he, hexc, _, _, _⟩ := read_elim h
    rw [Finset.eq_empty_iff_forall_not_mem] at hdisj ⊢
    intro x hx
    rw [Finset.mem_inter, List.mem_toFinset, List.mem_toFinset] at hx
    obtain ⟨hx1, hx2⟩ := hx
    apply hdisj x
    rw [Finset.mem_inter, List.mem_toFinset, List.mem_toFinset]
    rw [he] at hx1
    rw [hexc] at hx2
    exact ⟨(List.mem_filter.mp hx1).1, hx2⟩
  · intro env ls now L r A E hL hr hdisj hpers
    simp only [check_and_register_courses, hL] at hr
    split_ifs at hr with h1 h2 h3
    · cases hr; cases hpers
    · cases hr; cases hpers
    · cases hr; cases hpers
    · cases hr
      simp only [Option.some.injEq, Prod.mk.injEq] at hpers
      obtain ⟨hA, hE⟩ := hpers
      subst hA hE
      rw [Finset.eq_empty_iff_forall_not_mem] at hdisj ⊢
      intro x hx
      rw [Finset.mem_inter, List.mem_toFinset, List.mem_toFinset] at hx
      obtain ⟨hx1, hx2⟩ := hx
      rcases mem_setUnion.mp hx1 with h | h
      · apply hdisj x
        rw [Finset.mem_inter, List.mem_toFinset, List.mem_toFinset]
        exact ⟨h, hx2⟩
      · rcases runLoop_signed_char env _ _ _ _ _ _ _ h with h2 | ⟨_, h2, _⟩
        · cases h2
        · exact h2 hx2

/-- C1 (amended): a run bounded by the 900-second budget that times out aborts
the remaining unprocessed courses (the loop is abandoned; no timeout outcomes
are recorded, only a log) and performs no write of the credentials file at all:
`persisted` is `none` and the file after the run equals its content right after
the load, so already-resolved outcomes survive only in the in-memory outcome
list, not in the account record. -/
theorem c1_timeout_aborts_without_persisting (env : Env) (file : Option (List Line)) (now : Nat)
    (r : RunResult) (h : check_and_register_courses env file now = some r)
    (ht : r.timedOut = true) :
    r.persisted = none ∧
    ∃ L, read_credentials_file file now = some L ∧ r.fileAfter = L.fileAfter := by
  obtain ⟨L, hL⟩ := run_elim h
  simp only [check_and_register_courses, hL] at h
  split_ifs at h with h1 h2 h3
  · cases h; cases ht
  · cases h; exact ⟨rfl, L, hL, rfl⟩
  · cases h; exact ⟨rfl, L, hL, rfl⟩
  · cases h; cases ht




/-- C1: counterexample — with two discoverable courses and a clock that passes
the 900-second budget after the first is resolved as Success, the run times
out, the resolved Success for 051002 is kept in the outcome list, but nothing
is persisted: the credentials file after the run is the unchanged original,
whose registered set parses back empty. This refutes the claim that outcomes
resolved before the budget expired are persisted to the account record. -/
theorem c1_timeout_discards_resolved_outcomes_cex :
    check_and_register_courses c1env (some c1file) 0 = some c1run ∧
    c1run.timedOut = true ∧ (cid "051002", Outcome.registered) ∈ c1run.outcomes ∧
    c1run.persisted = none ∧
    (read_credentials_file (some c1run.fileAfter) 0).map LoadResult.existing = some [] := by
  refine ⟨by decide, rfl, by decide, rfl, by decide⟩

/-- Witness for C1 at the counterexample environment. -/
theorem c1_timeout_aborts_without_persisting_witness :
    c1run.persisted = none ∧
    ∃ L, read_credentials_file (some c1file) 0 = some L ∧ c1run.fileAfter = L.fileAfter :=
  c1_timeout_aborts_without_persisting c1env (some c1file) 0 c1run (by decide) (by decide)



/-- Witness for C4: a record with 051001 registered, loaded 41 minutes (2460
seconds) after the course's weekly start, comes back pruned and rewritten. -/
theorem c4_load_prunes_just_started_witness :
    cid "051001" ∉ c4res.existing ∧ c4res.wrote = true ∧ c4res.fileAfter = c4res.lines ∧
      c4res.lines.getD 2 [] = serializeCourseLine c4res.existing c4res.excluded :=
  c4_load_prunes_just_started c4file 240060 c4res (cid "051001") (by decide) (by decide) (by decide)



/-- Witness for C10 on a record whose course has not just started at time 0. -/
theorem c10_no_prune_no_write_witness :
    c10res.wrote = false ∧ c10res.fileAfter = c10file ∧
      c10res.existing = (parseCourseLine (c10file.getD 2 [])).1 ∧
      c10res.excluded = (parseCourseLine (c10file.getD 2 [])).2 ∧
      c10res.email = pyStrip (c10file.getD 0 []) ∧
      c10res.password = pyStrip (c10file.getD 1 []) :=
  c10_no_prune_no_write c10file 0 c10res (by decide) (by decide)

/-- Witness for C2 at course 051001 and now = 0. -/
theorem c2_next_occurrence_spec_witness :
    ∃ r, calculate_next_course_time (cid "051001") 0 = some r ∧
      weekdayOf r = (⟨2, 18, 0⟩ : CourseInfo).day_index ∧
      timeOfDayOf r = startSecOfDay ⟨2, 18, 0⟩ ∧ 0 ≤ r ∧
      ∀ t, weekdayOf t = (⟨2, 18, 0⟩ : CourseInfo).day_index →
        timeOfDayOf t = startSecOfDay ⟨2, 18, 0⟩ → 0 ≤ t → r ≤ t :=
  c2_next_occurrence_spec (cid "051001") ⟨2, 18, 0⟩ 0 (by decide)

/-- Witness for C7 at course 051001 and now exactly 2500 seconds past a start. -/
theorem c7_has_recently_started_spec_witness :
    course_has_just_started (cid "051001") 240100 = true ↔
      ∃ t : Nat, weekdayOf t = (⟨2, 18, 0⟩ : CourseInfo).day_index ∧
        timeOfDayOf t = startSecOfDay ⟨2, 18, 0⟩ ∧
        midnightOf 240100 ≤ t ∧ t < midnightOf 240100 + 604800 ∧
        ((240100 : Int) - t).natAbs ≤ 2500 :=
  c7_has_recently_started_spec.1 (cid "051001") ⟨2, 18, 0⟩ 240100 (by decide)

/-- Witness for C8 at course 051001 and now = 0. -/
theorem c8_fire_schedule_iff_deadline_future_witness :
    ((∃ ft, (cid "051001", ft) ∈ schedule_course_registrations 0) ↔
      ∃ r, calculate_next_course_time (cid "051001") 0 = some r ∧
        (0 : Int) < get_registration_time r) ∧
    ∀ ft, (cid "051001", ft) ∈ schedule_course_registrations 0 →
      ∃ r, calculate_next_course_time (cid "051001") 0 = some r ∧
        ft = get_registration_time r :=
  c8_fire_schedule_iff_deadline_future (cid "051001") ⟨2, 18, 0⟩ 0 (by decide)

/-- Witness for C3 at the spec's example record, loaded at time 0. -/
theorem c3_save_load_roundtrip_witness :
    serializeCourseLine [cid "051001", cid "051011"] [cid "051003"]
      = cid "051001, 051011, !051003\n" ∧
    ∃ L, read_credentials_file
        (some [cid "email\n", cid "pw\n",
          serializeCourseLine [cid "051001", cid "051011"] [cid "051003"]]) 0 = some L ∧
      L.existing.toFinset = [cid "051001", cid "051011"].toFinset ∧
      L.excluded.toFinset = [cid "051003"].toFinset ∧ L.wrote = false :=
  c3_save_load_roundtrip [cid "051001", cid "051011"] [cid "051003"] (cid "email\n") (cid "pw\n") 0
    (by decide) (by decide) (by decide)


/-- C5: counterexample — parsing a credentials file whose course line is
`051002, !051002` yields 051002 in both the registered and the excluded set, so
parsed records do not always satisfy registered ∩ excluded = ∅. -/
theorem c5_disjointness_cex :
    (read_credentials_file (some c5cexfile) 0).map (fun L => (L.existing, L.excluded)) =
      some ([cid "051002"], [cid "051002"]) ∧
    ¬ (([cid "051002"] : List Cid).toFinset ∩ ([cid "051002"] : List Cid).toFinset
        = (∅ : Finset Cid)) := by
  constructor <;> decide



/-- Witness for C5 on a file with disjoint course line, loaded at time 0. -/
theorem c5_disjointness_amended_witness :
    c5wres.existing.toFinset ∩ c5wres.excluded.toFinset = ∅ :=
  c5_disjointness_amended.1 c5wfile 0 c5wres (by decide) (by decide)





/-- Witness for C6: two identical runs over a record already containing 051001. -/
theorem c6_already_registered_idempotent_witness :
    ((cid "051001", Outcome.skippedRegistered) ∈ c6run.outcomes ∧
      ∀ o, (cid "051001", o) ∈ c6run.outcomes → o = Outcome.skippedRegistered) ∧
    ((cid "051001", Outcome.skippedRegistered) ∈ c6run.outcomes ∧
      ∀ o, (cid "051001", o) ∈ c6run.outcomes → o = Outcome.skippedRegistered) ∧
    (∃ A1 E1, c6run.persisted = some (A1, E1) ∧ cid "051001" ∈ A1 ∧ A1.Nodup) ∧
    (∃ A2 E2, c6run.persisted = some (A2, E2) ∧ cid "051001" ∈ A2 ∧ A2.Nodup) :=
  c6_already_registered_idempotent c6env c6env c6file 0 0 (cid "051001") c6load c6run c6run
    (by decide) (by decide) (by decide)
    (fun _ => Nat.zero_le 900) (by decide) (by decide)
    (fun _ => Nat.zero_le 900) (by decide) (by decide)
    (by decide) (by decide) (by decide)
    (by decide) (by decide) (by decide)


/-- C3: counterexample to the unrestricted round-trip — a record saved with
registered = {051001} and loaded at the moment the course starts (237600, a
Wednesday 18:00) comes back with an empty registered set, because the load
prunes just-started courses; so loading what was saved does not always
reproduce the registered set. -/
theorem c3_save_load_roundtrip_cex :
    (read_credentials_file (some c3cexfile) 237600).map LoadResult.existing = some [] ∧
    ¬ (([] : List Cid).toFinset = [cid "051001"].toFinset) := by
  constructor <;> decide
